import Mathlib

/-!
Shallow embedding of the FileUpload backend (Django app `file_api`):
`models.py` (`UserFile`), `serializers.py` (`UserFileSerializer`),
`views.py` (`UserFileViewSet`), migration `0002_userfile_state`, and the
configuration in `dropbox_clone/settings.py`.

Machine state is a `Store`: the metadata rows in insertion order plus the
set of blob paths present in storage.  Each view action becomes a function
from a store (and request data) to an HTTP status code and the successor
store.  Timestamps and generated primary keys are passed in as parameters.
-/

namespace FileUpload

/-- Configuration from `dropbox_clone/settings.py`: `ALLOWED_FILE_EXTENSIONS`
and `MAX_UPLOAD_SIZE`. -/
structure Config where
  allowed : List String
  maxSize : Nat
  deriving DecidableEq

/-- Values of settings.py lines 87-90. -/
def settingsConfig : Config :=
  { allowed := ["txt", "pdf", "png", "jpg", "jpeg", "gif", "json", "csv", "doc", "docx"],
    maxSize := 10 * 1024 * 1024 }

/-- Splits a filename into stem and extension following `os.path.splitext`:
the extension starts at the last dot, unless every character before that dot
is itself a dot (so `.bashrc` has no extension and `a.tar.gz` has `.gz`). -/
def splitext (s : String) : String × String :=
  let cs := s.toList
  match cs.reverse.findIdx? (fun c => c == '.') with
  | none => (s, "")
  | some k =>
    let i := cs.length - 1 - k
    if (cs.take i).any (fun c => !(c == '.')) then
      (String.mk (cs.take i), String.mk (cs.drop i))
    else (s, "")

/-- Lower-cased final dot-suffix extension without its dot, i.e.
`os.path.splitext(name)[1][1:].lower()` (models.py line 94, serializers.py
line 26).  Lower-casing maps the character range A-Z as `str.lower` does on
ASCII text, which covers every extension in the configured allow-list. -/
def fileExt (name : String) : String :=
  String.mk (((splitext name).2.toList.drop 1).map Char.toLower)

/-- Filename stem `os.path.splitext(name)[0]` (serializers.py line 36). -/
def stemOf (name : String) : String :=
  (splitext name).1

/-- File state choices added by migration `0002_userfile_state`:
`deleted` or `restored`, with default `restored`. -/
inductive FState where
  | deleted
  | restored
  deriving DecidableEq

/-- An uploaded file handle: its name and the byte length its `.size`
attribute reports. -/
structure FileRef where
  name : String
  size : Nat
  deriving DecidableEq

/-- A `UserFile` row (models.py plus migration 0002).  The `ownerId` and
`userIds` columns are used throughout views.py but their declarations are
absent from models.py.  Modelled from the spec: `ownerId` is a required
opaque identifier (spec section 3), hence non-nullable, and `userIds` is a
nullable list of user identifiers (share_file in views.py checks it for
`None` before appending). -/
structure UserFile where
  id : Nat
  title : String
  file : FileRef
  file_type : String
  file_size : Nat
  uploaded_at : Nat
  state : FState
  ownerId : String
  userIds : Option (List String)
  deriving DecidableEq

/-- The persistent state: metadata rows in insertion order, plus the blob
paths present in storage. -/
structure Store where
  records : List UserFile
  blobs : List String
  deriving DecidableEq

/-- Exception classes that views.py distinguishes: DRF `ValidationError`,
DRF `NotFound`, Django `Http404` (what `self.get_object()` raises for a
missing primary key), and Django core `ValidationError` (what
`UserFile.save` raises). -/
inductive Exc where
  | drfValidationError
  | drfNotFound
  | http404
  | djangoValidationError
  deriving DecidableEq

/-- `UserFileViewSet._handle_exception` (views.py 61-88): DRF
`ValidationError` maps to 400, DRF `NotFound` to 404, and every other
exception - including Django's `Http404` and Django's core
`ValidationError`, which are distinct classes from the two DRF ones - falls
through to the 500 response. -/
def handle_exception (e : Exc) : Nat :=
  match e with
  | .drfValidationError => 400
  | .drfNotFound => 404
  | .http404 => 500
  | .djangoValidationError => 500

/-- `UserFile.save` (models.py 84-105): on every save it re-derives
`file_type` and `file_size` from the stored file, raises Django
`ValidationError` when the derived extension is not allow-listed, and then
`full_clean` enforces the declared validators `0 <= file_size <=
MAX_UPLOAD_SIZE` (the `FileExtensionValidator` on the file field re-checks
the same extension condition). -/
def save (cfg : Config) (r : UserFile) : Except Exc UserFile :=
  let ext := fileExt r.file.name
  let r' := { r with file_type := ext, file_size := r.file.size }
  if ext ∈ cfg.allowed then
    if r'.file_size ≤ cfg.maxSize then .ok r'
    else .error .djangoValidationError
  else .error .djangoValidationError

/-- `UserFileSerializer.validate_file` (serializers.py 19-31): rejects when
`size > MAX_UPLOAD_SIZE`, then rejects when the lower-cased final dot-suffix
extension is not in the allow-list. -/
def validate_file (cfg : Config) (f : FileRef) : Except Exc FileRef :=
  if f.size > cfg.maxSize then .error .drfValidationError
  else if fileExt f.name ∈ cfg.allowed then .ok f
  else .error .drfValidationError

/-- `UserFileViewSet.create` (views.py 90-116) with `UserFileSerializer`
(serializers.py): serializer validation runs first, `title` defaults to the
filename stem, the row is built with the migration default `state =
restored` and no shares, and `UserFile.save` persists row and blob; every
exception is routed through `_handle_exception` and reaches the store not at
all, because validation precedes every write and `save` raises before the
row or blob is committed.  `newId` stands for the generated UUID primary key
and `now` for the `uploaded_at` auto-add timestamp. -/
def create (cfg : Config) (s : Store) (fname : String) (size : Nat)
    (title : Option String) (owner : String) (newId : Nat) (now : Nat) :
    Nat × Store :=
  match validate_file cfg ⟨fname, size⟩ with
  | .error e => (handle_exception e, s)
  | .ok f =>
    let r0 : UserFile :=
      { id := newId, title := title.getD (stemOf f.name), file := f,
        file_type := "", file_size := 0, uploaded_at := now,
        state := .restored, ownerId := owner, userIds := none }
    match save cfg r0 with
    | .error e => (handle_exception e, s)
    | .ok r =>
      (201, { records := s.records ++ [r], blobs := s.blobs ++ [f.name] })

/-- Row lookup by primary key, as `self.get_object()` performs it over the
default queryset (which is unfiltered for the detail actions). -/
def findRec (s : Store) (pk : Nat) : Option UserFile :=
  s.records.find? (fun r => r.id == pk)

/-- Row write-back by primary key: `file_obj.save()` updates the row whose
primary key matches. -/
def updateStore (s : Store) (pk : Nat) (r' : UserFile) : Store :=
  { s with records := s.records.map (fun x => if x.id == pk then r' else x) }

/-- `UserFileViewSet.move_to_bin` (views.py 173-197): fetch the row (Django
`Http404` when the pk is missing), set `state = deleted`, and call
`file_obj.save()`, which re-runs the model validation; any exception goes
through `_handle_exception`. -/
def move_to_bin (cfg : Config) (s : Store) (pk : Nat) : Nat × Store :=
  match findRec s pk with
  | none => (handle_exception .http404, s)
  | some r =>
    match save cfg { r with state := .deleted } with
    | .error e => (handle_exception e, s)
    | .ok r' => (200, updateStore s pk r')

/-- `UserFileViewSet.restore` (views.py 199-223): like `move_to_bin` with
`state = restored`. -/
def restore (cfg : Config) (s : Store) (pk : Nat) : Nat × Store :=
  match findRec s pk with
  | none => (handle_exception .http404, s)
  | some r =>
    match save cfg { r with state := .restored } with
    | .error e => (handle_exception e, s)
    | .ok r' => (200, updateStore s pk r')

/-- The membership-checked append loop of `share_file` (views.py 329-331):
each incoming id is appended only when not already present. -/
def addUserIds (cur : List String) : List String → List String
  | [] => cur
  | u :: us => if u ∈ cur then addUserIds cur us else addUserIds (cur ++ [u]) us

/-- `UserFileViewSet.share_file` (views.py 308-337): fetch the row, default a
`None` share list to `[]`, append each not-yet-present id, and save (which
re-runs the model validation). -/
def share_file (cfg : Config) (s : Store) (pk : Nat) (us : List String) :
    Nat × Store :=
  match findRec s pk with
  | none => (handle_exception .http404, s)
  | some r =>
    match save cfg { r with userIds := some (addUserIds (r.userIds.getD []) us) } with
    | .error e => (handle_exception e, s)
    | .ok r' => (200, updateStore s pk r')

/-- `UserFileViewSet.permanent_delete` (views.py 225-255): fetch the row
(Django `Http404` when missing), remove the blob when present, delete the
row, and answer 204. -/
def permanent_delete (s : Store) (pk : Nat) : Nat × Store :=
  match findRec s pk with
  | none => (handle_exception .http404, s)
  | some r =>
    (204, { records := s.records.filter (fun x => !(x.id == pk)),
            blobs := s.blobs.erase r.file.name })

/-- `UserFileViewSet.download` (views.py 276-306): a missing row raises
Django `Http404` (which `_handle_exception` answers with 500); an existing
row whose blob is absent from storage raises DRF `NotFound` (404); otherwise
the bytes stream back with status 200. -/
def download (s : Store) (pk : Nat) : Nat :=
  match findRec s pk with
  | none => handle_exception .http404
  | some r =>
    if r.file.name ∈ s.blobs then 200
    else handle_exception .drfNotFound

/-- The default DRF `retrieve` (Get) is not overridden in views.py, so a
missing pk propagates `Http404` to DRF's standard exception handler, which
answers 404; an existing pk answers 200 with the serialized row. -/
def retrieve (s : Store) (pk : Nat) : Nat :=
  match findRec s pk with
  | some _ => 200
  | none => 404

/-- Equality filter `ownerId=<param>` where the query parameter may be absent
(`None`).  Modelled from the spec: the `ownerId` column declaration is
absent from models.py; per spec section 3 it is a required identifier, hence
non-nullable, so the `IS NULL` lookup that a `None` parameter produces
matches no row. -/
def ownerMatches (p : Option String) (r : UserFile) : Bool :=
  match p with
  | some o => r.ownerId == o
  | none => false

/-- Containment filter `userIds__contains=<param>`.  Modelled from the spec:
`userIds` holds a list of opaque user identifiers (spec section 3), so
containment is list membership, and an absent parameter (JSON null) is never
an element of such a list. -/
def sharedMatches (p : Option String) (r : UserFile) : Bool :=
  match p with
  | some u => (r.userIds.getD []).contains u
  | none => false

/-- Insertion into a list sorted by `uploaded_at` descending, placing the new
element ahead of ties so that the sort below is stable. -/
def insertDesc (r : UserFile) : List UserFile → List UserFile
  | [] => [r]
  | y :: ys =>
    if y.uploaded_at ≤ r.uploaded_at then r :: y :: ys
    else y :: insertDesc r ys

/-- `order_by('-uploaded_at')` as a stable insertion sort. -/
def sortDesc : List UserFile → List UserFile
  | [] => []
  | x :: xs => insertDesc x (sortDesc xs)

/-- `get_queryset` for the `bin` action (views.py 46-47): every deleted row,
ordered by `uploaded_at` descending, with no owner filter. -/
def bin (s : Store) : List UserFile :=
  sortDesc (s.records.filter (fun r => decide (r.state = FState.deleted)))

/-- `get_queryset` for `list_restored` (views.py 51-54): restored rows
filtered by the `ownerId` query parameter, ordered by `uploaded_at`
descending. -/
def list_restored (s : Store) (p : Option String) : List UserFile :=
  sortDesc (s.records.filter
    (fun r => decide (r.state = FState.restored) && ownerMatches p r))

/-- `get_queryset` for `list_shared` (views.py 55-58): restored rows whose
share list contains the `userId` query parameter, ordered by `uploaded_at`
descending. -/
def list_shared (s : Store) (p : Option String) : List UserFile :=
  sortDesc (s.records.filter
    (fun r => decide (r.state = FState.restored) && sharedMatches p r))

/-- The record-level invariants of spec section 3, established at creation:
the stored file's extension is allow-listed and its size is within the
configured cap. -/
def ValidRec (cfg : Config) (r : UserFile) : Prop :=
  fileExt r.file.name ∈ cfg.allowed ∧ r.file.size ≤ cfg.maxSize

/-- The derived columns agree with the stored file, exactly as `save` leaves
them on every successful write. -/
def ConsistentRec (r : UserFile) : Prop :=
  r.file_type = fileExt r.file.name ∧ r.file_size = r.file.size

theorem mem_insertDesc {a r : UserFile} {l : List UserFile} :
    a ∈ insertDesc r l ↔ a = r ∨ a ∈ l := by
  induction l with
  | nil => simp [insertDesc]
  | cons y ys ih =>
    by_cases h : y.uploaded_at ≤ r.uploaded_at
    · simp [insertDesc, h]
    · simp only [insertDesc, if_neg h, List.mem_cons, ih]
      tauto

theorem pairwise_insertDesc {r : UserFile} {l : List UserFile}
    (h : l.Pairwise (fun a b => b.uploaded_at ≤ a.uploaded_at)) :
    (insertDesc r l).Pairwise (fun a b => b.uploaded_at ≤ a.uploaded_at) := by
  induction l with
  | nil => simp [insertDesc]
  | cons y ys ih =>
    obtain ⟨hy, hys⟩ := List.pairwise_cons.mp h
    by_cases hle : y.uploaded_at ≤ r.uploaded_at
    · rw [insertDesc, if_pos hle]
      refine List.pairwise_cons.mpr ⟨?_, h⟩
      intro b hb
      rcases List.mem_cons.mp hb with rfl | hb
      · exact hle
      · exact le_trans (hy b hb) hle
    · rw [insertDesc, if_neg hle]
      refine List.pairwise_cons.mpr ⟨?_, ih hys⟩
      intro b hb
      rcases mem_insertDesc.mp hb with rfl | hb
      · exact le_of_lt (lt_of_not_le hle)
      · exact hy b hb

theorem mem_sortDesc {a : UserFile} {l : List UserFile} :
    a ∈ sortDesc l ↔ a ∈ l := by
  induction l with
  | nil => simp [sortDesc]
  | cons x xs ih => simp [sortDesc, mem_insertDesc, ih]

theorem pairwise_sortDesc (l : List UserFile) :
    (sortDesc l).Pairwise (fun a b => b.uploaded_at ≤ a.uploaded_at) := by
  induction l with
  | nil => simp [sortDesc]
  | cons x xs ih => exact pairwise_insertDesc ih

theorem save_eq_of_valid {cfg : Config} {r : UserFile}
    (hv : ValidRec cfg r) (hc : ConsistentRec r) : save cfg r = Except.ok r := by
  obtain ⟨h1, h2⟩ := hv
  obtain ⟨h3, h4⟩ := hc
  rw [save]
  simp only [h1, h2, if_true, if_pos]
  rw [← h3, ← h4]

theorem save_err_of_invalid {cfg : Config} {r : UserFile}
    (hv : ¬ ValidRec cfg r) : save cfg r = Except.error Exc.djangoValidationError := by
  rw [ValidRec, not_and_or] at hv
  rw [save]
  rcases hv with h | h
  · rw [if_neg h]
  · rcases em (fileExt r.file.name ∈ cfg.allowed) with h1 | h1
    · rw [if_pos h1, if_neg (by simpa using h)]
    · rw [if_neg h1]

theorem find?_update (l : List UserFile) (pk : Nat) (r' : UserFile) (h : r'.id = pk) :
    (l.map (fun x => if x.id == pk then r' else x)).find? (fun x => x.id == pk)
      = (l.find? (fun x => x.id == pk)).map (fun _ => r') := by
  induction l with
  | nil => rfl
  | cons x xs ih =>
    simp only [List.map_cons]
    by_cases hx : x.id = pk
    · have hb : (x.id == pk) = true := beq_iff_eq.mpr hx
      have hb' : (r'.id == pk) = true := beq_iff_eq.mpr h
      rw [if_pos hb]
      simp only [List.find?_cons, hb, hb']
      rfl
    · have hb : (x.id == pk) = false := beq_eq_false_iff_ne.mpr hx
      rw [if_neg (by simp [hb])]
      simp only [List.find?_cons, hb]
      exact ih

theorem findRec_update {s : Store} {pk : Nat} {r' : UserFile} (h : r'.id = pk) :
    findRec (updateStore s pk r') pk = (findRec s pk).map (fun _ => r') :=
  find?_update s.records pk r' h

theorem findRec_update_self {s : Store} {pk : Nat} {r r' : UserFile}
    (hf : findRec s pk = some r) (h : r'.id = pk) :
    findRec (updateStore s pk r') pk = some r' := by
  rw [findRec_update h, hf]
  rfl

theorem mem_addUserIds {v : String} (cur us : List String) :
    v ∈ addUserIds cur us ↔ v ∈ cur ∨ v ∈ us := by
  induction us generalizing cur with
  | nil => simp [addUserIds]
  | cons u us ih =>
    by_cases h : u ∈ cur
    · rw [addUserIds, if_pos h, ih]
      simp only [List.mem_cons]
      constructor
      · tauto
      · rintro (hv | rfl | hv) <;> tauto
    · rw [addUserIds, if_neg h, ih]
      simp only [List.mem_append, List.mem_singleton, List.mem_cons]
      tauto

theorem nodup_addUserIds {cur : List String} (us : List String) (h : cur.Nodup) :
    (addUserIds cur us).Nodup := by
  induction us generalizing cur with
  | nil => simpa [addUserIds]
  | cons u us ih =>
    by_cases hu : u ∈ cur
    · rw [addUserIds, if_pos hu]
      exact ih h
    · rw [addUserIds, if_neg hu]
      refine ih ?_
      simp [List.nodup_append, h, hu]

theorem addUserIds_of_mem {cur : List String} {u : String} (h : u ∈ cur) :
    addUserIds cur [u] = cur := by
  rw [addUserIds, if_pos h, addUserIds]

theorem create_pos {cfg : Config} {s : Store} {fname : String} {size : Nat}
    {title : Option String} {owner : String} {newId now : Nat}
    (he : fileExt fname ∈ cfg.allowed) (hs : size ≤ cfg.maxSize) :
    create cfg s fname size title owner newId now
      = (201,
          { records := s.records ++
              [{ id := newId, title := title.getD (stemOf fname),
                 file := ⟨fname, size⟩, file_type := fileExt fname,
                 file_size := size, uploaded_at := now,
                 state := FState.restored, ownerId := owner, userIds := none }],
            blobs := s.blobs ++ [fname] }) := by
  have h1 : validate_file cfg ⟨fname, size⟩ = Except.ok ⟨fname, size⟩ := by
    simp only [validate_file]
    rw [if_neg (by simpa using not_lt.mpr hs), if_pos he]
  have h2 : save cfg
      { id := newId, title := title.getD (stemOf fname), file := ⟨fname, size⟩,
        file_type := "", file_size := 0, uploaded_at := now,
        state := FState.restored, ownerId := owner, userIds := none }
      = Except.ok
        { id := newId, title := title.getD (stemOf fname), file := ⟨fname, size⟩,
          file_type := fileExt fname, file_size := size, uploaded_at := now,
          state := FState.restored, ownerId := owner, userIds := none } := by
    simp only [save]
    rw [if_pos he, if_pos hs]
  simp only [create, h1, h2]

theorem create_neg {cfg : Config} {s : Store} {fname : String} {size : Nat}
    {title : Option String} {owner : String} {newId now : Nat}
    (h : ¬(fileExt fname ∈ cfg.allowed ∧ size ≤ cfg.maxSize)) :
    create cfg s fname size title owner newId now = (400, s) := by
  rcases em (size ≤ cfg.maxSize) with hs | hs
  · have he : fileExt fname ∉ cfg.allowed := fun he => h ⟨he, hs⟩
    have h1 : validate_file cfg ⟨fname, size⟩
        = Except.error Exc.drfValidationError := by
      simp only [validate_file]
      rw [if_neg (by simpa using not_lt.mpr hs), if_neg he]
    simp only [create, h1]
    rfl
  · have h1 : validate_file cfg ⟨fname, size⟩
        = Except.error Exc.drfValidationError := by
      simp only [validate_file]
      rw [if_pos (by simpa using not_le.mp hs)]
    simp only [create, h1]
    rfl

theorem move_to_bin_found {cfg : Config} {s : Store} {pk : Nat} {r : UserFile}
    (hf : findRec s pk = some r) (hv : ValidRec cfg r) (hc : ConsistentRec r) :
    move_to_bin cfg s pk
      = (200, updateStore s pk { r with state := FState.deleted }) := by
  have hsave : save cfg { r with state := FState.deleted }
      = Except.ok { r with state := FState.deleted } := save_eq_of_valid hv hc
  simp only [move_to_bin, hf, hsave]

theorem restore_found {cfg : Config} {s : Store} {pk : Nat} {r : UserFile}
    (hf : findRec s pk = some r) (hv : ValidRec cfg r) (hc : ConsistentRec r) :
    restore cfg s pk
      = (200, updateStore s pk { r with state := FState.restored }) := by
  have hsave : save cfg { r with state := FState.restored }
      = Except.ok { r with state := FState.restored } := save_eq_of_valid hv hc
  simp only [restore, hf, hsave]

theorem share_file_found {cfg : Config} {s : Store} {pk : Nat} {r : UserFile}
    (us : List String)
    (hf : findRec s pk = some r) (hv : ValidRec cfg r) (hc : ConsistentRec r) :
    share_file cfg s pk us
      = (200, updateStore s pk
          { r with userIds := some (addUserIds (r.userIds.getD []) us) }) := by
  have hsave : save cfg { r with userIds := some (addUserIds (r.userIds.getD []) us) }
      = Except.ok { r with userIds := some (addUserIds (r.userIds.getD []) us) } :=
    save_eq_of_valid hv hc
  simp only [share_file, hf, hsave]

/-- The empty store. -/
def emptyStore : Store := { records := [], blobs := [] }

/-- A row as an accepted upload of `report.pdf` (2000000 bytes, owner `u1`)
leaves it. -/
def sampleRec : UserFile :=
  { id := 1, title := "report", file := ⟨"report.pdf", 2000000⟩,
    file_type := "pdf", file_size := 2000000, uploaded_at := 10,
    state := FState.restored, ownerId := "u1", userIds := none }

/-- A store holding `sampleRec` and its blob. -/
def sampleStore : Store := { records := [sampleRec], blobs := ["report.pdf"] }

/-- A hand-crafted row whose stored file has the disallowed extension `exe`
(consistent columns, but violating the creation allow-list invariant). -/
def exeRec : UserFile :=
  { id := 2, title := "m", file := ⟨"m.exe", 3⟩, file_type := "exe",
    file_size := 3, uploaded_at := 0, state := FState.restored,
    ownerId := "u1", userIds := none }

/-- A store holding `exeRec` and its blob. -/
def exeStore : Store := { records := [exeRec], blobs := ["m.exe"] }

theorem save_ok_or_err (cfg : Config) (q : UserFile) :
    (ValidRec cfg q
        ∧ save cfg q = Except.ok
            { q with file_type := fileExt q.file.name, file_size := q.file.size })
      ∨ (¬ ValidRec cfg q
        ∧ save cfg q = Except.error Exc.djangoValidationError) := by
  rcases em (ValidRec cfg q) with hv | hv
  · left
    obtain ⟨h1, h2⟩ := hv
    refine ⟨⟨h1, h2⟩, ?_⟩
    simp only [save]
    rw [if_pos h1, if_pos h2]
  · right
    exact ⟨hv, save_err_of_invalid hv⟩

/-- C1: Upload succeeds (201 Created) exactly when the lower-cased final
dot-suffix extension of the filename is in the configured allow-list and the
byte length is at most `MAX_UPLOAD_SIZE` (byte lengths are naturals, so
`0 <= fileSize` holds throughout); otherwise it answers the validation
failure 400 and the store - records and blobs alike - is unchanged, so a
rejected upload has no partial side effect. -/
theorem c1_upload_validation (cfg : Config) (s : Store) (fname : String)
    (size : Nat) (title : Option String) (owner : String) (newId now : Nat) :
    ((create cfg s fname size title owner newId now).1 = 201
        ↔ fileExt fname ∈ cfg.allowed ∧ size ≤ cfg.maxSize)
      ∧ ((create cfg s fname size title owner newId now).1 ≠ 201
          → (create cfg s fname size title owner newId now).1 = 400
            ∧ (create cfg s fname size title owner newId now).2 = s) := by
  constructor
  · constructor
    · intro h201
      by_contra hnot
      rw [create_neg hnot] at h201
      simp at h201
    · rintro ⟨he, hs⟩
      rw [create_pos he hs]
  · intro hne
    rcases em (fileExt fname ∈ cfg.allowed ∧ size ≤ cfg.maxSize) with h | h
    · rw [create_pos h.1 h.2] at hne
      simp at hne
    · rw [create_neg h]
      exact ⟨rfl, rfl⟩

/-- Witness for C1 at a concrete accepted input. -/
theorem c1_upload_validation_witness :
    (((create settingsConfig emptyStore "report.pdf" 2000000 none "u1" 1 10).1 = 201
        ↔ fileExt "report.pdf" ∈ settingsConfig.allowed
            ∧ 2000000 ≤ settingsConfig.maxSize)
      ∧ ((create settingsConfig emptyStore "report.pdf" 2000000 none "u1" 1 10).1 ≠ 201
          → (create settingsConfig emptyStore "report.pdf" 2000000 none "u1" 1 10).1 = 400
            ∧ (create settingsConfig emptyStore "report.pdf" 2000000 none "u1" 1 10).2
                = emptyStore)) :=
  c1_upload_validation settingsConfig emptyStore "report.pdf" 2000000 none "u1" 1 10

/-- C7: an accepted upload appends exactly one new record whose `file_type`
is the lower-cased final dot-suffix of the uploaded filename, whose
`file_size` is the payload byte length (both derived from the accepted
payload - the serializer declares them read-only, so no client metadata
enters), whose `title` is the client value or else the filename stem, and
whose `state` is `restored`. -/
theorem c7_upload_record (cfg : Config) (s : Store) (fname : String)
    (size : Nat) (title : Option String) (owner : String) (newId now : Nat)
    (he : fileExt fname ∈ cfg.allowed) (hs : size ≤ cfg.maxSize) :
    ∃ r : UserFile,
      (create cfg s fname size title owner newId now).1 = 201
        ∧ (create cfg s fname size title owner newId now).2.records
            = s.records ++ [r]
        ∧ (create cfg s fname size title owner newId now).2.blobs
            = s.blobs ++ [fname]
        ∧ r.file_type = fileExt fname
        ∧ r.file_size = size
        ∧ r.title = title.getD (stemOf fname)
        ∧ r.state = FState.restored := by
  refine ⟨{ id := newId, title := title.getD (stemOf fname),
            file := ⟨fname, size⟩, file_type := fileExt fname,
            file_size := size, uploaded_at := now, state := FState.restored,
            ownerId := owner, userIds := none }, ?_, ?_, ?_, rfl, rfl, rfl, rfl⟩
      <;> rw [create_pos he hs]

/-- Witness for C7: uploading `report.pdf` with no client title. -/
theorem c7_upload_record_witness :
    (fileExt "report.pdf" ∈ settingsConfig.allowed
        ∧ 2000000 ≤ settingsConfig.maxSize)
      ∧ ∃ r : UserFile,
        (create settingsConfig emptyStore "report.pdf" 2000000 none "u1" 1 10).1 = 201
          ∧ (create settingsConfig emptyStore "report.pdf" 2000000 none "u1" 1 10).2.records
              = emptyStore.records ++ [r]
          ∧ (create settingsConfig emptyStore "report.pdf" 2000000 none "u1" 1 10).2.blobs
              = emptyStore.blobs ++ ["report.pdf"]
          ∧ r.file_type = fileExt "report.pdf"
          ∧ r.file_size = 2000000
          ∧ r.title = Option.getD none (stemOf "report.pdf")
          ∧ r.state = FState.restored :=
  ⟨⟨by decide, by decide⟩,
    c7_upload_record settingsConfig emptyStore "report.pdf" 2000000 none "u1" 1 10
      (by decide) (by decide)⟩

/-- C8: ListRestored with the ownerId query parameter absent and ListShared
with the userId query parameter absent each produce the empty result set
rather than erroring. -/
theorem c8_missing_identity (s : Store) :
    list_restored s none = [] ∧ list_shared s none = [] := by
  constructor
  · have h : s.records.filter
        (fun r => decide (r.state = FState.restored) && ownerMatches none r) = [] := by
      simp [ownerMatches]
    rw [list_restored, h]
    rfl
  · have h : s.records.filter
        (fun r => decide (r.state = FState.restored) && sharedMatches none r) = [] := by
      simp [sharedMatches]
    rw [list_shared, h]
    rfl

/-- Witness for C8 on a nonempty store with a restored, shared record. -/
theorem c8_missing_identity_witness :
    list_restored
        { records := [{ sampleRec with userIds := some ["u2"] }],
          blobs := ["report.pdf"] } none = []
      ∧ list_shared
        { records := [{ sampleRec with userIds := some ["u2"] }],
          blobs := ["report.pdf"] } none = [] :=
  c8_missing_identity
    { records := [{ sampleRec with userIds := some ["u2"] }],
      blobs := ["report.pdf"] }

/-- C2, code evaluated at the inputs the claim quantifies over: on a store
holding no record for the identifier - here the store `permanent_delete`
leaves behind - move_to_bin, restore, share_file, permanent_delete and
download all answer 500 (the `_handle_exception` fallback reached by
Django's `Http404`), not the claimed 404; only the non-overridden retrieve
(Get) answers 404, and download answers 404 in the
record-exists-but-blob-absent case exactly as the claim says. -/
theorem c2_missing_record_gives_500 :
    (permanent_delete sampleStore 1).1 = 204
      ∧ (permanent_delete sampleStore 1).2 = emptyStore
      ∧ (move_to_bin settingsConfig (permanent_delete sampleStore 1).2 1).1 = 500
      ∧ (restore settingsConfig (permanent_delete sampleStore 1).2 1).1 = 500
      ∧ (share_file settingsConfig (permanent_delete sampleStore 1).2 1 ["u2"]).1 = 500
      ∧ (permanent_delete (permanent_delete sampleStore 1).2 1).1 = 500
      ∧ download (permanent_delete sampleStore 1).2 1 = 500
      ∧ retrieve (permanent_delete sampleStore 1).2 1 = 404
      ∧ download { records := [sampleRec], blobs := [] } 1 = 404 := by
  decide

/-- C6 counterexample: on a store whose only record carries the stored
extension `exe`, move_to_bin, restore and share_file all answer 500 and
leave the store unchanged, because `UserFile.save` re-derives the extension
and re-checks it against the allow-list on every save; the identical
move_to_bin on the allow-listed `pdf` record answers 200, so the outcome of
these operations does depend on the record's extension membership after
creation. -/
theorem c6_counterexample :
    (move_to_bin settingsConfig exeStore 2).1 = 500
      ∧ (move_to_bin settingsConfig exeStore 2).2 = exeStore
      ∧ (restore settingsConfig exeStore 2).1 = 500
      ∧ (restore settingsConfig exeStore 2).2 = exeStore
      ∧ (share_file settingsConfig exeStore 2 ["u2"]).1 = 500
      ∧ (share_file settingsConfig exeStore 2 ["u2"]).2 = exeStore
      ∧ (move_to_bin settingsConfig sampleStore 1).1 = 200 := by
  decide

/-- C6 amended: `fileType` is re-validated after creation - `UserFile.save`
re-derives the extension from the stored file name and re-checks it against
the allow-list (and the size against the cap) on every save - so MoveToBin,
Restore and ShareWith on an existing record succeed exactly when the
record's stored file still passes that re-check. -/
theorem c6_revalidated_on_save (cfg : Config) (s : Store) (pk : Nat)
    (r : UserFile) (us : List String) (hf : findRec s pk = some r) :
    ((move_to_bin cfg s pk).1 = 200 ↔ ValidRec cfg r)
      ∧ ((restore cfg s pk).1 = 200 ↔ ValidRec cfg r)
      ∧ ((share_file cfg s pk us).1 = 200 ↔ ValidRec cfg r) := by
  refine ⟨?_, ?_, ?_⟩
  · rcases save_ok_or_err cfg { r with state := FState.deleted } with ⟨hv, hs⟩ | ⟨hv, hs⟩
    · simp only [move_to_bin, hf, hs]
      exact iff_of_true trivial hv
    · simp only [move_to_bin, hf, hs]
      exact iff_of_false (by simp [handle_exception]) hv
  · rcases save_ok_or_err cfg { r with state := FState.restored } with ⟨hv, hs⟩ | ⟨hv, hs⟩
    · simp only [restore, hf, hs]
      exact iff_of_true trivial hv
    · simp only [restore, hf, hs]
      exact iff_of_false (by simp [handle_exception]) hv
  · rcases save_ok_or_err cfg
        { r with userIds := some (addUserIds (r.userIds.getD []) us) } with
      ⟨hv, hs⟩ | ⟨hv, hs⟩
    · simp only [share_file, hf, hs]
      exact iff_of_true trivial hv
    · simp only [share_file, hf, hs]
      exact iff_of_false (by simp [handle_exception]) hv

/-- Witness for the amended C6 on the `exe` record, where all three
operations fail because the re-check fails. -/
theorem c6_revalidated_on_save_witness :
    ((move_to_bin settingsConfig exeStore 2).1 = 200
        ↔ ValidRec settingsConfig exeRec)
      ∧ ((restore settingsConfig exeStore 2).1 = 200
        ↔ ValidRec settingsConfig exeRec)
      ∧ ((share_file settingsConfig exeStore 2 ["u2"]).1 = 200
        ↔ ValidRec settingsConfig exeRec) :=
  c6_revalidated_on_save settingsConfig exeStore 2 exeRec ["u2"] rfl

/-- C4: on an existing record satisfying the creation invariants of spec
section 3, MoveToBin and Restore always succeed (200) whatever the record's
prior state, and each applied twice in succession is idempotent in effect:
state ends deleted resp. restored. -/
theorem c4_idempotent (cfg : Config) (s : Store) (pk : Nat) (r : UserFile)
    (hf : findRec s pk = some r) (hv : ValidRec cfg r) (hc : ConsistentRec r) :
    (move_to_bin cfg s pk).1 = 200
      ∧ (move_to_bin cfg (move_to_bin cfg s pk).2 pk).1 = 200
      ∧ findRec (move_to_bin cfg (move_to_bin cfg s pk).2 pk).2 pk
          = some { r with state := FState.deleted }
      ∧ (restore cfg s pk).1 = 200
      ∧ (restore cfg (restore cfg s pk).2 pk).1 = 200
      ∧ findRec (restore cfg (restore cfg s pk).2 pk).2 pk
          = some { r with state := FState.restored } := by
  have hid : r.id = pk := by simpa using List.find?_some hf
  have h1 := move_to_bin_found hf hv hc
  have hf1 : findRec (move_to_bin cfg s pk).2 pk
      = some { r with state := FState.deleted } := by
    rw [h1]
    exact findRec_update_self hf hid
  have h2 := move_to_bin_found hf1 hv hc
  have hf2 : findRec (move_to_bin cfg (move_to_bin cfg s pk).2 pk).2 pk
      = some { r with state := FState.deleted } := by
    rw [h2]
    exact findRec_update_self hf1 hid
  have h3 := restore_found hf hv hc
  have hf3 : findRec (restore cfg s pk).2 pk
      = some { r with state := FState.restored } := by
    rw [h3]
    exact findRec_update_self hf hid
  have h4 := restore_found hf3 hv hc
  have hf4 : findRec (restore cfg (restore cfg s pk).2 pk).2 pk
      = some { r with state := FState.restored } := by
    rw [h4]
    exact findRec_update_self hf3 hid
  exact ⟨by rw [h1], by rw [h2], hf2, by rw [h3], by rw [h4], hf4⟩

/-- Witness for C4 on the sample upload-created record. -/
theorem c4_idempotent_witness :
    (move_to_bin settingsConfig sampleStore 1).1 = 200
      ∧ (move_to_bin settingsConfig (move_to_bin settingsConfig sampleStore 1).2 1).1 = 200
      ∧ findRec (move_to_bin settingsConfig (move_to_bin settingsConfig sampleStore 1).2 1).2 1
          = some { sampleRec with state := FState.deleted }
      ∧ (restore settingsConfig sampleStore 1).1 = 200
      ∧ (restore settingsConfig (restore settingsConfig sampleStore 1).2 1).1 = 200
      ∧ findRec (restore settingsConfig (restore settingsConfig sampleStore 1).2 1).2 1
          = some { sampleRec with state := FState.restored } :=
  c4_idempotent settingsConfig sampleStore 1 sampleRec rfl
    ⟨by decide, by decide⟩ ⟨by decide, by decide⟩

/-- C9: the bin listing is global and not owner-scoped: a record appears in
it exactly when it is stored with state deleted, whatever its owner, and the
listing is ordered by `uploaded_at` descending. -/
theorem c9_bin_global (s : Store) (r : UserFile) :
    (r ∈ bin s ↔ r ∈ s.records ∧ r.state = FState.deleted)
      ∧ (bin s).Pairwise (fun a b => b.uploaded_at ≤ a.uploaded_at) := by
  refine ⟨?_, pairwise_sortDesc _⟩
  rw [bin, mem_sortDesc, List.mem_filter]
  simp

/-- Witness for C9: two deleted records of different owners both appear in
the bin listing. -/
theorem c9_bin_global_witness :
    (({ sampleRec with state := FState.deleted } : UserFile)
        ∈ bin { records := [{ sampleRec with state := FState.deleted },
                            { exeRec with state := FState.deleted }],
                blobs := [] }
      ↔ ({ sampleRec with state := FState.deleted } : UserFile)
          ∈ [{ sampleRec with state := FState.deleted },
             { exeRec with state := FState.deleted }]
        ∧ ({ sampleRec with state := FState.deleted } : UserFile).state
            = FState.deleted)
      ∧ (bin { records := [{ sampleRec with state := FState.deleted },
                           { exeRec with state := FState.deleted }],
               blobs := [] }).Pairwise
          (fun a b => b.uploaded_at ≤ a.uploaded_at) :=
  c9_bin_global
    { records := [{ sampleRec with state := FState.deleted },
                  { exeRec with state := FState.deleted }], blobs := [] }
    { sampleRec with state := FState.deleted }

theorem mem_update_cases {s : Store} {pk : Nat} {r' x : UserFile}
    (hx : x ∈ (updateStore s pk r').records) :
    x = r' ∨ (x ∈ s.records ∧ x.id ≠ pk) := by
  rw [updateStore] at hx
  simp only [List.mem_map] at hx
  obtain ⟨y, hy, hxy⟩ := hx
  by_cases h : y.id = pk
  · left
    rw [← hxy, if_pos (beq_iff_eq.mpr h)]
  · right
    rw [← hxy, if_neg (by simp [h])]
    exact ⟨hy, h⟩

theorem mem_update_of_mem {s : Store} {pk : Nat} {r' y : UserFile}
    (hy : y ∈ s.records) (h : y.id = pk) :
    r' ∈ (updateStore s pk r').records := by
  rw [updateStore]
  simp only [List.mem_map]
  exact ⟨y, hy, by rw [if_pos (beq_iff_eq.mpr h)]⟩

theorem mem_list_restored {s : Store} {p : Option String} {x : UserFile} :
    x ∈ list_restored s p
      ↔ x ∈ s.records ∧ x.state = FState.restored ∧ ownerMatches p x = true := by
  rw [list_restored, mem_sortDesc, List.mem_filter]
  simp [and_assoc]

theorem mem_list_shared {s : Store} {p : Option String} {x : UserFile} :
    x ∈ list_shared s p
      ↔ x ∈ s.records ∧ x.state = FState.restored ∧ sharedMatches p x = true := by
  rw [list_shared, mem_sortDesc, List.mem_filter]
  simp [and_assoc]

theorem mem_bin {s : Store} {x : UserFile} :
    x ∈ bin s ↔ x ∈ s.records ∧ x.state = FState.deleted := by
  rw [bin, mem_sortDesc, List.mem_filter]
  simp

theorem share_twice (cfg : Config) (s : Store) (pk : Nat) (r : UserFile)
    (u : String) (hf : findRec s pk = some r) (hv : ValidRec cfg r)
    (hc : ConsistentRec r) :
    ∃ L : List String,
      share_file cfg s pk [u, u]
          = (200, updateStore s pk { r with userIds := some L })
        ∧ share_file cfg (share_file cfg s pk [u, u]).2 pk [u]
            = (200, updateStore (share_file cfg s pk [u, u]).2 pk
                { r with userIds := some L })
        ∧ u ∈ L ∧ ((r.userIds.getD []).Nodup → L.Nodup) := by
  refine ⟨addUserIds (r.userIds.getD []) [u, u], ?_⟩
  have hid : r.id = pk := by simpa using List.find?_some hf
  have huL : u ∈ addUserIds (r.userIds.getD []) [u, u] := by
    rw [mem_addUserIds]
    right
    simp
  have h1 := share_file_found [u, u] hf hv hc
  have hf1 : findRec (share_file cfg s pk [u, u]).2 pk
      = some { r with userIds := some (addUserIds (r.userIds.getD []) [u, u]) } := by
    rw [show (share_file cfg s pk [u, u]).2
        = updateStore s pk
          { r with userIds := some (addUserIds (r.userIds.getD []) [u, u]) } from
      by rw [h1]]
    exact findRec_update_self hf hid
  have h2 := share_file_found [u] hf1 hv hc
  refine ⟨h1, ?_, huL, fun hnd => nodup_addUserIds _ hnd⟩
  rw [h2]
  rw [show (({ r with userIds := some (addUserIds (r.userIds.getD []) [u, u]) }
      : UserFile).userIds.getD []) = addUserIds (r.userIds.getD []) [u, u] from rfl]
  rw [addUserIds_of_mem huL]

/-- C3: on an existing record satisfying the creation invariants of spec
section 3, after MoveToBin the record is absent from ListRestored for its
owner and present in ListBin; after a subsequent Restore it is present in
ListRestored for its owner and absent from ListBin. -/
theorem c3_bin_and_restore_visibility (cfg : Config) (s : Store) (pk : Nat)
    (r : UserFile) (hf : findRec s pk = some r) (hv : ValidRec cfg r)
    (hc : ConsistentRec r) :
    (∀ x ∈ list_restored (move_to_bin cfg s pk).2 (some r.ownerId), x.id ≠ pk)
      ∧ (∃ x ∈ bin (move_to_bin cfg s pk).2, x.id = pk)
      ∧ (∃ x ∈ list_restored (restore cfg (move_to_bin cfg s pk).2 pk).2
            (some r.ownerId), x.id = pk)
      ∧ (∀ x ∈ bin (restore cfg (move_to_bin cfg s pk).2 pk).2, x.id ≠ pk) := by
  have hid : r.id = pk := by simpa using List.find?_some hf
  have hmem : r ∈ s.records := List.mem_of_find?_eq_some hf
  have h1 := move_to_bin_found hf hv hc
  have hs1 : (move_to_bin cfg s pk).2
      = updateStore s pk { r with state := FState.deleted } := by rw [h1]
  have hf1 : findRec (move_to_bin cfg s pk).2 pk
      = some { r with state := FState.deleted } := by
    rw [hs1]
    exact findRec_update_self hf hid
  have h2 := restore_found hf1 hv hc
  have hs2 : (restore cfg (move_to_bin cfg s pk).2 pk).2
      = updateStore (move_to_bin cfg s pk).2 pk
          { r with state := FState.restored } := by rw [h2]
  have hrdmem : ({ r with state := FState.deleted } : UserFile)
      ∈ (move_to_bin cfg s pk).2.records := by
    rw [hs1]
    exact mem_update_of_mem hmem hid
  refine ⟨?_, ?_, ?_, ?_⟩
  · intro x hx
    rw [mem_list_restored, hs1] at hx
    obtain ⟨hxm, hxs, _⟩ := hx
    rcases mem_update_cases hxm with rfl | ⟨_, hne⟩
    · simp at hxs
    · exact hne
  · refine ⟨{ r with state := FState.deleted }, ?_, hid⟩
    rw [mem_bin, hs1]
    exact ⟨mem_update_of_mem hmem hid, rfl⟩
  · refine ⟨{ r with state := FState.restored }, ?_, hid⟩
    rw [mem_list_restored, hs2]
    refine ⟨mem_update_of_mem hrdmem hid, rfl, ?_⟩
    simp [ownerMatches]
  · intro x hx
    rw [mem_bin, hs2] at hx
    obtain ⟨hxm, hxs⟩ := hx
    rcases mem_update_cases hxm with rfl | ⟨_, hne⟩
    · simp at hxs
    · exact hne

/-- Witness for C3 on the sample upload-created record. -/
theorem c3_bin_and_restore_visibility_witness :
    (∀ x ∈ list_restored (move_to_bin settingsConfig sampleStore 1).2
        (some sampleRec.ownerId), x.id ≠ 1)
      ∧ (∃ x ∈ bin (move_to_bin settingsConfig sampleStore 1).2, x.id = 1)
      ∧ (∃ x ∈ list_restored
            (restore settingsConfig (move_to_bin settingsConfig sampleStore 1).2 1).2
            (some sampleRec.ownerId), x.id = 1)
      ∧ (∀ x ∈ bin
            (restore settingsConfig (move_to_bin settingsConfig sampleStore 1).2 1).2,
          x.id ≠ 1) :=
  c3_bin_and_restore_visibility settingsConfig sampleStore 1 sampleRec rfl
    ⟨by decide, by decide⟩ ⟨by decide, by decide⟩

/-- C5: ShareWith computes a set union: sharing the same userId twice -
here within one call's list and once more in a second call - leaves exactly
one membership of that userId in the share list, and ListShared for that
userId afterwards includes the record while its state is restored. -/
theorem c5_share_union (cfg : Config) (s : Store) (pk : Nat) (r : UserFile)
    (u : String) (hf : findRec s pk = some r) (hv : ValidRec cfg r)
    (hc : ConsistentRec r) (hnd : (r.userIds.getD []).Nodup)
    (hst : r.state = FState.restored) :
    (share_file cfg s pk [u, u]).1 = 200
      ∧ (share_file cfg (share_file cfg s pk [u, u]).2 pk [u]).1 = 200
      ∧ ∃ x : UserFile,
          findRec (share_file cfg (share_file cfg s pk [u, u]).2 pk [u]).2 pk
              = some x
            ∧ (x.userIds.getD []).count u = 1
            ∧ x ∈ list_shared
                (share_file cfg (share_file cfg s pk [u, u]).2 pk [u]).2
                (some u) := by
  have hid : r.id = pk := by simpa using List.find?_some hf
  have hmem : r ∈ s.records := List.mem_of_find?_eq_some hf
  obtain ⟨L, h1, h2, huL, hndL⟩ := share_twice cfg s pk r u hf hv hc
  have hs1 : (share_file cfg s pk [u, u]).2
      = updateStore s pk { r with userIds := some L } := by rw [h1]
  have hs2 : (share_file cfg (share_file cfg s pk [u, u]).2 pk [u]).2
      = updateStore (share_file cfg s pk [u, u]).2 pk
          { r with userIds := some L } := by rw [h2]
  have hr1mem : ({ r with userIds := some L } : UserFile)
      ∈ (share_file cfg s pk [u, u]).2.records := by
    rw [hs1]
    exact mem_update_of_mem hmem hid
  have hfind1 : findRec (share_file cfg s pk [u, u]).2 pk
      = some { r with userIds := some L } := by
    rw [hs1]
    exact findRec_update_self hf hid
  have hf2 : findRec (share_file cfg (share_file cfg s pk [u, u]).2 pk [u]).2 pk
      = some { r with userIds := some L } := by
    rw [hs2]
    exact findRec_update_self hfind1 hid
  refine ⟨by rw [h1], by rw [h2], { r with userIds := some L }, hf2, ?_, ?_⟩
  · exact List.count_eq_one_of_mem (hndL hnd) huL
  · rw [mem_list_shared, hs2]
    refine ⟨mem_update_of_mem hr1mem hid, hst, ?_⟩
    simp only [sharedMatches]
    exact List.elem_iff.mpr huL

/-- Witness for C5: sharing `report.pdf` with `u2` twice. -/
theorem c5_share_union_witness :
    (share_file settingsConfig sampleStore 1 ["u2", "u2"]).1 = 200
      ∧ (share_file settingsConfig
          (share_file settingsConfig sampleStore 1 ["u2", "u2"]).2 1 ["u2"]).1 = 200
      ∧ ∃ x : UserFile,
          findRec (share_file settingsConfig
              (share_file settingsConfig sampleStore 1 ["u2", "u2"]).2 1 ["u2"]).2 1
              = some x
            ∧ (x.userIds.getD []).count "u2" = 1
            ∧ x ∈ list_shared
                (share_file settingsConfig
                  (share_file settingsConfig sampleStore 1 ["u2", "u2"]).2 1 ["u2"]).2
                (some "u2") :=
  c5_share_union settingsConfig sampleStore 1 sampleRec "u2" rfl
    ⟨by decide, by decide⟩ ⟨by decide, by decide⟩ (by decide) rfl

/-- C10: frame effect - MoveToBin and Restore change only the state field of
the target record, and ShareWith changes only the userIds field: id, title,
the stored file reference, file_type, file_size, uploaded_at and ownerId are
all carried over unchanged (the conclusion exhibits each successor record as
the original with a single field replaced), and none of the three operations
touches the blob store. -/
theorem c10_frame (cfg : Config) (s : Store) (pk : Nat) (r : UserFile)
    (us : List String) (hf : findRec s pk = some r) (hv : ValidRec cfg r)
    (hc : ConsistentRec r) :
    findRec (move_to_bin cfg s pk).2 pk = some { r with state := FState.deleted }
      ∧ (move_to_bin cfg s pk).2.blobs = s.blobs
      ∧ findRec (restore cfg s pk).2 pk = some { r with state := FState.restored }
      ∧ (restore cfg s pk).2.blobs = s.blobs
      ∧ findRec (share_file cfg s pk us).2 pk
          = some { r with userIds := some (addUserIds (r.userIds.getD []) us) }
      ∧ (share_file cfg s pk us).2.blobs = s.blobs := by
  have hid : r.id = pk := by simpa using List.find?_some hf
  have h1 := move_to_bin_found hf hv hc
  have h2 := restore_found hf hv hc
  have h3 := share_file_found us hf hv hc
  have hs1 : (move_to_bin cfg s pk).2
      = updateStore s pk { r with state := FState.deleted } := by rw [h1]
  have hs2 : (restore cfg s pk).2
      = updateStore s pk { r with state := FState.restored } := by rw [h2]
  have hs3 : (share_file cfg s pk us).2
      = updateStore s pk
          { r with userIds := some (addUserIds (r.userIds.getD []) us) } := by
    rw [h3]
  refine ⟨?_, ?_, ?_, ?_, ?_, ?_⟩
  · rw [hs1]
    exact findRec_update_self hf hid
  · rw [hs1]
    rfl
  · rw [hs2]
    exact findRec_update_self hf hid
  · rw [hs2]
    rfl
  · rw [hs3]
    exact findRec_update_self hf hid
  · rw [hs3]
    rfl

/-- Witness for C10 on the sample upload-created record. -/
theorem c10_frame_witness :
    findRec (move_to_bin settingsConfig sampleStore 1).2 1
        = some { sampleRec with state := FState.deleted }
      ∧ (move_to_bin settingsConfig sampleStore 1).2.blobs = sampleStore.blobs
      ∧ findRec (restore settingsConfig sampleStore 1).2 1
          = some { sampleRec with state := FState.restored }
      ∧ (restore settingsConfig sampleStore 1).2.blobs = sampleStore.blobs
      ∧ findRec (share_file settingsConfig sampleStore 1 ["u2"]).2 1
          = some { sampleRec with
              userIds := some (addUserIds (sampleRec.userIds.getD []) ["u2"]) }
      ∧ (share_file settingsConfig sampleStore 1 ["u2"]).2.blobs
          = sampleStore.blobs :=
  c10_frame settingsConfig sampleStore 1 sampleRec ["u2"] rfl
    ⟨by decide, by decide⟩ ⟨by decide, by decide⟩

end FileUpload
